import Mathlib

/-!
Verification development for the hierarchical clustering library
(package clustering: main.go, distancemap.go).

Float64 values are idealized as exact rational numbers, represented by
unnormalized fractions (integer numerator over positive integer
denominator) so every operation reduces in the kernel; the IEEE NaN
value gets its own constructor, because the library can produce NaN
(0.0/0.0 in the unweighted average LWParams) and NaN propagation and
NaN comparison semantics are observable in the merge loop.  Rounding of
float64 arithmetic is not modeled.  Go maps are modeled as association
lists (the engine never iterates over a map, so enumeration order of
maps is irrelevant; cluster enumeration is over integer ranges exactly
as in the source).  Go run time panics (slice index out of range,
assignment to an entry of a nil map) are modeled by Option, a none
result standing for a crash.
-/

set_option maxRecDepth 100000

/-- Idealized float64: NaN, or an exact fraction num/den with den > 0
maintained by construction. -/
inductive F where
  | nan : F
  | frac : Int → Int → F
deriving DecidableEq, Repr

/-- Embed an integer as an F value. -/
def F.ofInt (n : Int) : F := F.frac n 1

/-- Embed a rational as an F value. -/
def F.ofQ (q : ℚ) : F := F.frac q.num q.den

/-- Semantic value of an F, none for NaN. -/
def F.toQ : F → Option ℚ
  | F.nan => none
  | F.frac a b => some ((a : ℚ) / (b : ℚ))

/-- Addition; NaN propagates as in IEEE arithmetic. -/
def fadd : F → F → F
  | F.frac a b, F.frac c d => F.frac (a * d + c * b) (b * d)
  | _, _ => F.nan

/-- Subtraction; NaN propagates. -/
def fsub : F → F → F
  | F.frac a b, F.frac c d => F.frac (a * d - c * b) (b * d)
  | _, _ => F.nan

/-- Multiplication; NaN propagates. -/
def fmul : F → F → F
  | F.frac a b, F.frac c d => F.frac (a * c) (b * d)
  | _, _ => F.nan

/-- Negation; NaN propagates. -/
def fneg : F → F
  | F.frac a b => F.frac (-a) b
  | F.nan => F.nan

/-- Division.  Division by zero yields NaN: the only division by zero
the library can reach is 0.0/0.0 (the unweighted average LWParams with
empty item sets), which is NaN in IEEE arithmetic as well. -/
def fdiv : F → F → F
  | F.frac a b, F.frac c d =>
      if 0 < c then F.frac (a * d) (b * c)
      else if c < 0 then F.frac (-(a * d)) (b * (-c))
      else F.nan
  | _, _ => F.nan

/-- Strict less-than by cross multiplication; any comparison involving
NaN is false, as for float64. -/
def flt : F → F → Bool
  | F.frac a b, F.frac c d => decide (a * d < c * b)
  | _, _ => false

/-- Less-or-equal; any comparison involving NaN is false. -/
def fle : F → F → Bool
  | F.frac a b, F.frac c d => decide (a * d ≤ c * b)
  | _, _ => false

/-- Equality test; NaN compares unequal to everything, as for float64. -/
def feq : F → F → Bool
  | F.frac a b, F.frac c d => decide (a * d = c * b)
  | _, _ => false

/-- The value of math.MaxFloat64, that is (2 to the 53 minus 1) times
2 to the 971, written as an explicit integer literal so that it reduces
in the kernel. -/
def maxFloat64 : F := F.frac 179769313486231570814527423731704356798070567525844996598917476803157260780028538760589558632766878171540458953514382464234321326889464182768467546703537516986049910576551282076245490090389328944075868508455133942304583236903222948165808559332123348274797826204144723168738177180919299881250404026184124858368 1

/-! ### Association lists modeling Go maps -/

/-- Lookup in an association list (Go map read that also reports
presence). -/
def alGet {κ : Type} [DecidableEq κ] {β : Type} : List (κ × β) → κ → Option β
  | [], _ => none
  | (k, v) :: rest, k' => if k' = k then some v else alGet rest k'

/-- Go map assignment: replace the entry if the key is present,
otherwise add it. -/
def alInsert {κ : Type} [DecidableEq κ] {β : Type} : List (κ × β) → κ → β → List (κ × β)
  | [], k, v => [(k, v)]
  | (k0, v0) :: rest, k, v =>
      if k = k0 then (k0, v) :: rest else (k0, v0) :: alInsert rest k v

/-- Go delete: remove the entry for the key if present. -/
def alErase {κ : Type} [DecidableEq κ] {β : Type} : List (κ × β) → κ → List (κ × β)
  | [], _ => []
  | (k0, v0) :: rest, k =>
      if k = k0 then rest else (k0, v0) :: alErase rest k

/-- Insert into a set represented as a list, modeling assignment of an
empty struct value into a Go map used as a set: a member is added once. -/
def alInsertSet {κ : Type} [DecidableEq κ] (l : List κ) (k : κ) : List κ :=
  if k ∈ l then l else l ++ [k]

/-! ### Linkage strategies (LinkageType interface and the built-ins) -/

/-- The LinkageType interface: a linkage strategy with mutable state of
type sigma over items of type alpha, given by its four methods acting
on the state. -/
structure LinkageI (α σ : Type) where
  reset : σ → σ
  put : α → α → F → σ → σ
  get : σ → F
  lwparams : σ → List F

/-- maxLinkage (CompleteLinkage): the state is the maxDist field. -/
def maxLinkage (α : Type) : LinkageI α F where
  reset _ := F.ofInt (-1)
  put _ _ dist m := if flt m dist || flt m (F.ofInt 0) then dist else m
  get m := m
  lwparams _ := [F.frac 1 2, F.frac 1 2, F.ofInt 0, F.frac 1 2]

/-- minLinkage (SingleLinkage): the state is the minDist field. -/
def minLinkage (α : Type) : LinkageI α F where
  reset _ := F.ofInt (-1)
  put _ _ dist m := if flt dist m || flt m (F.ofInt 0) then dist else m
  get m := m
  lwparams _ := [F.frac 1 2, F.frac 1 2, F.ofInt 0, F.frac (-1) 2]

/-- State of avgLinkage: running sum, pair count, weighted flag, and
the two item sets used by the unweighted variant.  The zero value of
the Go struct (as produced by AverageLinkage and
WeightedAverageLinkage before any Reset) has zero sums and nil maps,
modeled by empty lists. -/
structure AvgState (α : Type) where
  avgDist : F
  totalPairs : F
  isWeighted : Bool
  leftCounts : List α
  rightCounts : List α
deriving DecidableEq, Repr

/-- The freshly constructed avgLinkage state (Go zero value with the
given isWeighted flag). -/
def avgInit (α : Type) (w : Bool) : AvgState α :=
  { avgDist := F.ofInt 0, totalPairs := F.ofInt 0, isWeighted := w,
    leftCounts := [], rightCounts := [] }

/-- avgLinkage implements both AverageLinkage (isWeighted = false,
UPGMA) and WeightedAverageLinkage (isWeighted = true, WPGMA). -/
def avgLinkage (α : Type) [DecidableEq α] : LinkageI α (AvgState α) where
  reset s :=
    { avgDist := F.ofInt 0, totalPairs := F.ofInt 0, isWeighted := s.isWeighted,
      leftCounts := if s.isWeighted then s.leftCounts else [],
      rightCounts := if s.isWeighted then s.rightCounts else [] }
  put a b dist s :=
    { avgDist := fadd s.avgDist dist, totalPairs := fadd s.totalPairs (F.ofInt 1),
      isWeighted := s.isWeighted,
      leftCounts := if s.isWeighted then s.leftCounts else alInsertSet s.leftCounts a,
      rightCounts := if s.isWeighted then s.rightCounts else alInsertSet s.rightCounts b }
  get s :=
    if fle s.totalPairs (F.ofInt 0) then F.ofInt 0
    else fdiv s.avgDist s.totalPairs
  lwparams s :=
    if s.isWeighted then [F.frac 1 2, F.frac 1 2, F.ofInt 0, F.ofInt 0]
    else
      let ni := F.ofInt s.leftCounts.length
      let nj := F.ofInt s.rightCounts.length
      [fdiv ni (fadd ni nj), fdiv nj (fadd ni nj), F.ofInt 0, F.ofInt 0]

/-! ### ClusterSet interface and the distance map data source -/

/-- The ClusterSet interface consumed by the engine, with cluster set
state of type kappa: Count, EachCluster (returning the list of cluster
ids the callback would visit, in visiting order), EachItem, Distance
and Merge. -/
structure ClusterSetI (α κ : Type) where
  count : κ → ℕ
  eachCluster : κ → Int → List ℕ
  eachItem : κ → ℕ → List α
  distance : κ → ℕ → ℕ → α → α → F
  merge : κ → ℕ → ℕ → κ × ℕ × ℕ

/-- State of distMapClusterSet: the distance data (map of maps) and the
slice of clusters, each cluster a list of its items. -/
structure DMState (α : Type) where
  data : List (α × List (α × F))
  clusters : List (List α)
deriving DecidableEq, Repr

/-- distMapClusterSet.Distance: the (item1, item2) entry if present,
otherwise the (item2, item1) entry, otherwise the default 1.0. -/
def dmDistance {α : Type} [DecidableEq α] (st : DMState α) (_ _ : ℕ) (a b : α) : F :=
  match (alGet st.data a).bind (fun inner => alGet inner b) with
  | some v => v
  | none =>
    match (alGet st.data b).bind (fun inner => alGet inner a) with
    | some v => v
    | none => F.ofInt 1

/-- distMapClusterSet.EachCluster: visits every index strictly greater
than start, in increasing order.  The engine only ever passes start
values greater or equal to -1. -/
def dmEachCluster {α : Type} (st : DMState α) (start : Int) : List ℕ :=
  (List.range st.clusters.length).drop (start + 1).toNat

/-- distMapClusterSet.Merge: after ordering the two indices, the
cluster at the last position is swapped into the place of the higher
index (unless that index is already last), the items of that cluster
are appended to the cluster at the lower index, and the slice is
truncated by one.  Returns the kept index and the old last index. -/
def dmMerge {α : Type} (st : DMState α) (i0 j0 : ℕ) : DMState α × ℕ × ℕ :=
  let p := if j0 < i0 then (j0, i0) else (i0, j0)
  let i := p.1
  let j := p.2
  let x := st.clusters.length - 1
  let q :=
    if j < x then
      (((st.clusters.set x (st.clusters.getD j [])).set j (st.clusters.getD x [])), x)
    else (st.clusters, j)
  let cl := q.1
  let j' := q.2
  let cl' := cl.set i (cl.getD i [] ++ cl.getD j' [])
  ({ st with clusters := cl'.take j' }, i, x)

/-- The distMapClusterSet instance of the ClusterSet interface. -/
def dmCS (α : Type) [DecidableEq α] : ClusterSetI α (DMState α) where
  count st := st.clusters.length
  eachCluster := dmEachCluster
  eachItem st c := st.clusters.getD c []
  distance := dmDistance
  merge := dmMerge

/-! ### Checkers -/

/-- The Checker interface: a decision function over the cluster set
state, the two candidate indices and the candidate score. -/
def CheckerI (κ : Type) : Type := κ → ℕ → ℕ → F → Bool

/-- MaxClusters: continue while the count exceeds the limit. -/
def limitClustersCount {α : Type} [DecidableEq α] (t : ℕ) : CheckerI (DMState α) :=
  fun st _ _ _ => decide ((dmCS α).count st > t)

/-- Threshold: continue while the next score is at most the limit. -/
def simpleThreshold {κ : Type} (t : F) : CheckerI κ :=
  fun _ _ _ score => fle score t

/-! ### The clustering engine (HClustering) -/

/-- The distance cache: a Go map from the lower cluster index to a map
from the higher cluster index to the cached linkage score. -/
def DMap : Type := List (ℕ × List (ℕ × F))

/-- Engine state: linkage state, cluster set state, the cached
Lance-Williams coefficients and the distance cache (none modeling a
nil Go map). -/
structure HClustering (σ κ : Type) where
  link : σ
  cs : κ
  lwCache : List F
  distCache : Option DMap

/-- Read distCache at (i, j): a missing outer or inner entry (or a nil
cache) reads as the Go zero value 0.0. -/
def dcRead (c : Option DMap) (i j : ℕ) : F :=
  match c with
  | none => F.ofInt 0
  | some dc =>
    match alGet dc i with
    | none => F.ofInt 0
    | some inner => (alGet inner j).getD (F.ofInt 0)

/-- Write distCache at (i, j).  If the outer map holds no entry for i
the inner map is the nil map and Go panics on the assignment; the
panic is modeled by none. -/
def dcWrite (c : Option DMap) (i j : ℕ) (v : F) : Option (Option DMap) :=
  match c with
  | none => none
  | some dc =>
    match alGet dc i with
    | none => none
    | some inner => some (some (alInsert dc i (alInsert inner j v)))

/-- delete of a whole cache row (no panic possible). -/
def dcEraseOuter (c : Option DMap) (k : ℕ) : Option DMap :=
  c.map (fun dc => alErase dc k)

/-- Conditional delete inside a cache row, as in mergeAndUpdateAll:
only performed when the row is present. -/
def dcEraseInner (c : Option DMap) (k j : ℕ) : Option DMap :=
  c.map (fun dc =>
    match alGet dc k with
    | none => dc
    | some inner => alInsert dc k (alErase inner j))

/-- The streaming computation shared by dist: Reset the linkage, then
for every item a of cluster i and every item b of cluster j put the
pair distance (the default OptimizedClusterSet path of the source,
which is the only one a plain ClusterSet exercises), and read the
score.  Returns the score and the final linkage state. -/
def computeScore {α σ κ : Type} (L : LinkageI α σ) (CS : ClusterSetI α κ)
    (cs : κ) (link : σ) (i j : ℕ) : F × σ :=
  let s0 := L.reset link
  let s1 := (CS.eachItem cs i).foldl
    (fun s a =>
      (CS.eachItem cs j).foldl (fun s b => L.put a b (CS.distance cs i j a b) s) s)
    s0
  (L.get s1, s1)

/-- HClustering.dist: cache aware distance between clusters i and j.
With an active cache the pair is canonicalized to (min, max), a hit is
returned directly, and a miss computes the score and stores it (after
creating the row for the lower index when absent, as the source does). -/
def HClustering.dist {α σ κ : Type} (L : LinkageI α σ) (CS : ClusterSetI α κ)
    (h : HClustering σ κ) (i0 j0 : ℕ) : F × HClustering σ κ :=
  match h.distCache with
  | some dc =>
    let p := if j0 < i0 then (j0, i0) else (i0, j0)
    let i := p.1
    let j := p.2
    match alGet dc i with
    | some inner =>
      match alGet inner j with
      | some s => (s, h)
      | none =>
        let r := computeScore L CS h.cs h.link i j
        (r.1, { h with link := r.2,
                       distCache := some (alInsert dc i (alInsert inner j r.1)) })
    | none =>
      let r := computeScore L CS h.cs h.link i j
      (r.1, { h with link := r.2,
                     distCache := some (alInsert dc i (alInsert [] j r.1)) })
  | none =>
    let r := computeScore L CS h.cs h.link i0 j0
    (r.1, { h with link := r.2 })

/-- The snapshot loop of mergeAndUpdateAll: the list of dist(i, k) for
k = 0 .. nc-1, threading the engine state. -/
def snapshotDists {α σ κ : Type} (L : LinkageI α σ) (CS : ClusterSetI α κ)
    (h : HClustering σ κ) (i nc : ℕ) : List F × HClustering σ κ :=
  (List.range nc).foldl
    (fun acc k =>
      let r := HClustering.dist L CS acc.2 i k
      (acc.1 ++ [r.1], r.2))
    ([], h)

/-- The cache manipulation of mergeAndUpdateAll after the structural
merge: relocation repair when the vacated index nj differs from j,
followed by the Lance-Williams update loop.  none models a Go panic
(assignment to an entry of a missing row, or indexing a lwCache of
length less than 4 inside the loop). -/
def updateCache (lw : List F) (c0 : Option DMap) (nc i j ni nj : ℕ)
    (diks djks : List F) (origDist : F) : Option (Option DMap) :=
  let afterRepair : Option (Option DMap) :=
    if nj ≠ j then
      let r := if ni = j then i else j
      let copied := (List.range nc).foldl
        (fun acc k =>
          acc.bind (fun c =>
            if k = nj then some c
            else
              let p1 := if r < k then (r, k) else (k, r)
              let p2 := if nj < k then (nj, k) else (k, nj)
              dcWrite c p1.1 p1.2 (dcRead c p2.1 p2.2)))
        (some c0)
      copied.map (fun c =>
        (List.range nc).foldl
          (fun c k =>
            if k = nj then dcEraseOuter c nj
            else dcEraseInner c k nj)
          c)
    else some c0
  afterRepair.bind (fun c1 =>
    (List.range (nc - 1)).foldl
      (fun acc k =>
        acc.bind (fun c =>
          match lw.get? 0, lw.get? 1, lw.get? 2, lw.get? 3 with
          | some l0, some l1, some l2, some l3 =>
            let dik := diks.getD k (F.ofInt 0)
            let djk := djks.getD k (F.ofInt 0)
            let dd0 := fsub dik djk
            let dd := if flt dd0 (F.ofInt 0) then fneg dd0 else dd0
            let d := fadd (fadd (fadd (fmul l0 dik) (fmul l1 djk))
                                (fmul l2 origDist))
                          (fmul l3 dd)
            if ni < k then dcWrite c ni k d else dcWrite c k ni d
          | _, _, _, _ => none))
      (some c1))

/-- HClustering.mergeAndUpdateAll: snapshot the distances from i and
from j to every cluster, perform the structural merge, then repair and
update the cache.  none models a Go panic. -/
def HClustering.mergeAndUpdateAll {α σ κ : Type} (L : LinkageI α σ)
    (CS : ClusterSetI α κ) (h : HClustering σ κ) (i j : ℕ) :
    Option (HClustering σ κ) :=
  let nc := CS.count h.cs
  let r1 := snapshotDists L CS h i nc
  let diks := r1.1
  let r2 := snapshotDists L CS r1.2 j nc
  let djks := r2.1
  let h2 := r2.2
  match diks.get? j with
  | none => none
  | some origDist =>
    let m := CS.merge h2.cs i j
    match updateCache h2.lwCache h2.distCache nc i j m.2.1 m.2.2 diks djks origDist with
    | none => none
    | some c' => some { h2 with cs := m.1, distCache := c' }

/-- The coefficient setup at the top of MergeNext: when lwCache does
not hold exactly 4 values, LWParams is consulted (once) and the
distance cache is replaced by a fresh empty map. -/
def HClustering.setup {α σ κ : Type} (L : LinkageI α σ)
    (h : HClustering σ κ) : HClustering σ κ :=
  if h.lwCache.length ≠ 4
  then { h with lwCache := L.lwparams h.link, distCache := some ([] : DMap) }
  else h

/-- The best pair search of MergeNext: enumerate all pairs via
EachCluster, score each via dist, and keep the first strict
improvement over the running best (initially MaxFloat64 with no pair). -/
def HClustering.bestFold {α σ κ : Type} (L : LinkageI α σ) (CS : ClusterSetI α κ)
    (h : HClustering σ κ) : (F × Option (ℕ × ℕ)) × HClustering σ κ :=
  (CS.eachCluster h.cs (-1)).foldl
    (fun acc c1 =>
      (CS.eachCluster acc.2.cs (Int.ofNat c1)).foldl
        (fun acc c2 =>
          let r := HClustering.dist L CS acc.2 c1 c2
          if flt r.1 acc.1.1 then ((r.1, some (c1, c2)), r.2) else (acc.1, r.2))
        acc)
    ((maxFloat64, none), h)

/-- HClustering.MergeNext: setup, best pair search, the no-candidate
and checker gates, then the merge (directly on the data source when no
cache is active, otherwise through mergeAndUpdateAll).  The returned
Bool is the Go return value; none models a panic. -/
def HClustering.mergeNext {α σ κ : Type} (L : LinkageI α σ) (CS : ClusterSetI α κ)
    (chk : CheckerI κ) (h : HClustering σ κ) : Option (Bool × HClustering σ κ) :=
  let h0 := HClustering.setup L h
  let res := HClustering.bestFold L CS h0
  let bestScore := res.1.1
  let h1 := res.2
  match res.1.2 with
  | none => some (false, h1)
  | some bp =>
    if feq bestScore maxFloat64 then some (false, h1)
    else if !chk h1.cs bp.1 bp.2 bestScore then some (false, h1)
    else
      match h1.distCache with
      | none => some (true, { h1 with cs := (CS.merge h1.cs bp.1 bp.2).1 })
      | some _ =>
        (HClustering.mergeAndUpdateAll L CS h1 bp.1 bp.2).map (fun h' => (true, h'))

/-- The driving loop of Cluster: while more than one cluster remains,
attempt a merge, stopping on a false attempt.  fuel bounds the number
of iterations; exhausting it yields none, so a some result is a run
the source completes as well. -/
def clusterGo {α σ κ : Type} (L : LinkageI α σ) (CS : ClusterSetI α κ)
    (chk : CheckerI κ) : ℕ → HClustering σ κ → Option (HClustering σ κ)
  | 0, _ => none
  | Nat.succ fuel, h =>
    if CS.count h.cs > 1 then
      match HClustering.mergeNext L CS chk h with
      | none => none
      | some (false, h') => some h'
      | some (true, h') => clusterGo L CS chk fuel h'
    else some h

/-- Cluster: build the engine around the data source, checker and
linkage (Go zero value lwCache is the empty slice, distCache the nil
map) and run the loop; returns the final cluster set state. -/
def cluster {α σ κ : Type} (L : LinkageI α σ) (CS : ClusterSetI α κ)
    (chk : CheckerI κ) (link0 : σ) (cs0 : κ) : Option κ :=
  (clusterGo L CS chk (CS.count cs0 + 1)
    { link := link0, cs := cs0, lwCache := [], distCache := none }).map
    (fun h => h.cs)

/-! ### Reference definitions written from the specification text -/

/-- Written from the specification words for the cache correctness
property: the value obtained by discarding the cache and recomputing
from scratch via the linkage strategy over current cluster membership,
that is Reset, one Put per cross cluster item pair, then Get. -/
def specScratchScore {α σ κ : Type} (L : LinkageI α σ) (CS : ClusterSetI α κ)
    (cs : κ) (link : σ) (i j : ℕ) : F :=
  L.get ((CS.eachItem cs i).foldl
    (fun s a =>
      (CS.eachItem cs j).foldl (fun s b => L.put a b (CS.distance cs i j a b) s) s)
    (L.reset link))

/-- Written from the specification words for the unweighted average
(UPGMA) Lance-Williams coefficients at a merge of two clusters holding
ni and nj items at merge time. -/
def specUPGMAParams (ni nj : ℕ) : List F :=
  [fdiv (F.ofInt ni) (F.ofInt (ni + nj)), fdiv (F.ofInt nj) (F.ofInt (ni + nj)),
   F.ofInt 0, F.ofInt 0]

/-! ### Concrete inputs and auxiliary strategies used by the claims -/

/-- A Reset, Put star, Get cycle of a linkage strategy from an
arbitrary starting state. -/
def runCycle {α σ : Type} (L : LinkageI α σ) (s : σ) (l : List (α × α × F)) : F :=
  L.get (l.foldl (fun st p => L.put p.1 p.2.1 p.2.2 st) (L.reset s))

/-- The complete linkage score after Reset and one Put per listed
distance (items are irrelevant to maxLinkage). -/
def maxScoreOfPuts (l : List ℚ) : F :=
  runCycle (maxLinkage ℕ) (F.ofInt 0) (l.map (fun q => (0, 0, F.ofQ q)))

/-- A user supplied linkage strategy whose LWParams returns 2 values
(minLinkage behavior otherwise). -/
def badLinkage2 (α : Type) : LinkageI α F :=
  { reset := fun _ => F.ofInt (-1),
    put := fun _ _ dist m => if flt dist m || flt m (F.ofInt 0) then dist else m,
    get := fun m => m,
    lwparams := fun _ => [F.frac 1 2, F.frac 1 2] }

/-- A user supplied linkage strategy whose LWParams returns 5 values
(minLinkage behavior otherwise, with the 4 single linkage coefficients
first). -/
def linkage5 (α : Type) : LinkageI α F :=
  { reset := fun _ => F.ofInt (-1),
    put := fun _ _ dist m => if flt dist m || flt m (F.ofInt 0) then dist else m,
    get := fun m => m,
    lwparams := fun _ => [F.frac 1 2, F.frac 1 2, F.ofInt 0, F.frac (-1) 2, F.ofInt 9] }

/-- A user implementable ClusterSet (the interface is public) with
three clusters of which cluster 1 enumerates no items, and constant
item distance 0.5; merge is never exercised by the statements using
it. -/
def emptyClusterCS : ClusterSetI ℕ Unit :=
  { count := fun _ => 3,
    eachCluster := fun _ start => (List.range 3).drop (start + 1).toNat,
    eachItem := fun _ c => if c = 0 then [7] else if c = 2 then [8] else [],
    distance := fun _ _ _ _ _ => F.frac 5 10,
    merge := fun u _ _ => (u, 0, 0) }

/-- Fresh engine over emptyClusterCS with complete linkage (Go zero
value engine fields). -/
def hEmpty : HClustering F Unit :=
  { link := F.ofInt 0, cs := (), lwCache := [], distCache := none }

/-- Two singleton clusters with one recorded distance 0.3. -/
def DM2 : DMState ℕ :=
  { data := [(0, [(1, F.frac 3 10)])], clusters := [[0], [1]] }

/-- Three singleton clusters with pairwise distances 0.1, 0.5, 0.6. -/
def DM3 : DMState ℕ :=
  { data := [(0, [(1, F.frac 1 10), (2, F.frac 5 10)]), (1, [(2, F.frac 6 10)])],
    clusters := [[0], [1], [2]] }

/-- Four singleton clusters with pairwise distances chosen so that the
first merge is (0, 1) and the data source relocates cluster 3 into
slot 1. -/
def DM4 : DMState ℕ :=
  { data := [(0, [(1, F.frac 1 10), (2, F.frac 5 10), (3, F.frac 9 10)]),
             (1, [(2, F.frac 6 10), (3, F.frac 8 10)]),
             (2, [(3, F.frac 7 10)])],
    clusters := [[0], [1], [2], [3]] }

/-- The five item distance map of the package documentation and tests
(items a..e numbered 0..4, distances in tenths), with its five
singleton clusters. -/
def DM5 : DMState ℕ :=
  { data := [(0, [(1, F.frac 0 1), (2, F.frac 0 1), (3, F.frac 1 1), (4, F.frac 4 10)]),
             (1, [(2, F.frac 1 10), (3, F.frac 9 10), (4, F.frac 4 10)]),
             (2, [(3, F.frac 9 10), (4, F.frac 2 10)]),
             (3, [(4, F.frac 1 10)])],
    clusters := [[0], [1], [2], [3], [4]] }

/-- Fresh engine over DM4 with single linkage. -/
def hDM4 : HClustering F (DMState ℕ) :=
  { link := F.ofInt 0, cs := DM4, lwCache := [], distCache := none }

/-- Fresh engine over DM3 with unweighted average linkage. -/
def hDM3avg : HClustering (AvgState ℕ) (DMState ℕ) :=
  { link := avgInit ℕ false, cs := DM3, lwCache := [], distCache := none }

/-- Fresh engine over DM2 with single linkage. -/
def hDM2 : HClustering F (DMState ℕ) :=
  { link := F.ofInt 0, cs := DM2, lwCache := [], distCache := none }

/-! ### Helper lemmas -/

/-- flt on embedded rationals is the rational strict order. -/
theorem flt_ofQ (p q : ℚ) : flt (F.ofQ p) (F.ofQ q) = decide (p < q) := by
  have h : p < q ↔ p.num * q.den < q.num * p.den := by
    conv_lhs => rw [← Rat.num_div_den p, ← Rat.num_div_den q]
    rw [div_lt_div_iff₀ (by positivity) (by positivity)]
    exact_mod_cast Iff.rfl
  simp only [F.ofQ, flt]
  exact decide_eq_decide.mpr h.symm

/-- A foldl preserves any invariant its step preserves. -/
theorem foldl_pres {β γ : Type} (f : β → γ → β) (P : β → Prop)
    (hf : ∀ b c, P b → P (f b c)) :
    ∀ (l : List γ) (b : β), P b → P (l.foldl f b) := by
  intro l
  induction l with
  | nil => intro b hb; exact hb
  | cons x xs ih => intro b hb; exact ih (f b x) (hf b x hb)

/-- A foldl preserves any invariant its step preserves on members of
the folded list. -/
theorem foldl_pres_mem {β γ : Type} (f : β → γ → β) (P : β → Prop) :
    ∀ (l : List γ), (∀ b c, c ∈ l → P b → P (f b c)) →
      ∀ (b : β), P b → P (l.foldl f b) := by
  intro l
  induction l with
  | nil => intro _ b hb; exact hb
  | cons x xs ih =>
      intro hf b hb
      exact ih (fun b c hc hb => hf b c (List.mem_cons_of_mem x hc) hb)
        (f b x) (hf b x (List.mem_cons_self x xs) hb)

/-- dist does not change the cluster set state. -/
theorem dist_cs {α σ κ : Type} (L : LinkageI α σ) (CS : ClusterSetI α κ)
    (h : HClustering σ κ) (i j : ℕ) :
    (HClustering.dist L CS h i j).2.cs = h.cs := by
  unfold HClustering.dist
  rcases h with ⟨l0, c0, lw, dc⟩
  cases dc with
  | none => rfl
  | some dc =>
      dsimp only
      rcases alGet dc (if j < i then (j, i) else (i, j)).1 with _ | inner
      · rfl
      · dsimp only
        rcases alGet inner (if j < i then (j, i) else (i, j)).2 with _ | s <;> rfl

/-- The snapshot loop does not change the cluster set state. -/
theorem snapshotDists_cs {α σ κ : Type} (L : LinkageI α σ) (CS : ClusterSetI α κ)
    (h : HClustering σ κ) (i nc : ℕ) :
    (snapshotDists L CS h i nc).2.cs = h.cs := by
  unfold snapshotDists
  have := foldl_pres
    (fun (acc : List F × HClustering σ κ) k =>
      ((acc.1 ++ [(HClustering.dist L CS acc.2 i k).1],
        (HClustering.dist L CS acc.2 i k).2)))
    (fun acc => acc.2.cs = h.cs)
    (fun acc k hacc => by
      simpa only [dist_cs] using hacc)
    (List.range nc) ([], h) rfl
  exact this

/-- setup does not change the cluster set state. -/
theorem setup_cs {α σ κ : Type} (L : LinkageI α σ) (h : HClustering σ κ) :
    (HClustering.setup L h).cs = h.cs := by
  unfold HClustering.setup
  split <;> rfl

/-- The best pair search does not change the cluster set state. -/
theorem bestFold_cs {α σ κ : Type} (L : LinkageI α σ) (CS : ClusterSetI α κ)
    (h : HClustering σ κ) :
    (HClustering.bestFold L CS h).2.cs = h.cs := by
  unfold HClustering.bestFold
  refine foldl_pres _
    (fun (acc : (F × Option (ℕ × ℕ)) × HClustering σ κ) => acc.2.cs = h.cs) ?_ _ _ rfl
  intro acc c1 hacc
  refine foldl_pres _
    (fun (acc : (F × Option (ℕ × ℕ)) × HClustering σ κ) => acc.2.cs = h.cs) ?_ _ _ hacc
  intro acc2 c2 hacc2
  dsimp only
  split <;> simpa only [dist_cs] using hacc2

/-- Members of the EachCluster enumeration after start c1 are between
c1+1 and the cluster count. -/
theorem mem_dmEachCluster {α : Type} (st : DMState α) (c1 x : ℕ)
    (hx : x ∈ dmEachCluster st (Int.ofNat c1)) :
    c1 < x ∧ x < st.clusters.length := by
  unfold dmEachCluster at hx
  have h1 : x < st.clusters.length := List.mem_range.mp (List.mem_of_mem_drop hx)
  have h2 : (Int.ofNat c1 + 1).toNat ≤ x := by
    rcases List.mem_iff_getElem.mp hx with ⟨i, hi, hget⟩
    rw [List.getElem_drop] at hget
    rw [List.getElem_range] at hget
    omega
  have h3 : (Int.ofNat c1 + 1).toNat = c1 + 1 := rfl
  refine ⟨?_, h1⟩
  omega

/-- Merge on the distance map data source reduces the cluster count by
exactly one when the two indices are in range. -/
theorem dmMerge_length {α : Type} (st : DMState α) (i j : ℕ)
    (hi : i < st.clusters.length) (hj : j < st.clusters.length) :
    ((dmMerge st i j).1).clusters.length + 1 = st.clusters.length := by
  unfold dmMerge
  dsimp only
  split <;> (rename_i hlt; dsimp only) <;>
    (split <;> (rename_i hswap; simp only [List.length_take, List.length_set]; omega))

/-- The invariant of the best pair search: the threaded engine keeps
its cluster set, and any recorded best pair is an ordered in range
pair. -/
theorem bestFold_inv {α σ : Type} [DecidableEq α] (L : LinkageI α σ)
    (h : HClustering σ (DMState α)) :
    (HClustering.bestFold L (dmCS α) h).2.cs = h.cs ∧
      ∀ p q, (HClustering.bestFold L (dmCS α) h).1.2 = some (p, q) →
        p < q ∧ q < h.cs.clusters.length := by
  unfold HClustering.bestFold
  have main := foldl_pres_mem
    (fun (acc : (F × Option (ℕ × ℕ)) × HClustering σ (DMState α)) (c1 : ℕ) =>
      ((dmCS α).eachCluster acc.2.cs (Int.ofNat c1)).foldl
        (fun acc c2 =>
          let r := HClustering.dist L (dmCS α) acc.2 c1 c2
          if flt r.1 acc.1.1 then ((r.1, some (c1, c2)), r.2) else (acc.1, r.2))
        acc)
    (fun acc => acc.2.cs = h.cs ∧
      ∀ p q, acc.1.2 = some (p, q) → p < q ∧ q < h.cs.clusters.length)
    ((dmCS α).eachCluster h.cs (-1))
    ?_ ((maxFloat64, none), h) ⟨rfl, by intro p q hpq; cases hpq⟩
  · exact main
  · intro acc c1 _ hacc
    have inner := foldl_pres_mem
      (fun (acc : (F × Option (ℕ × ℕ)) × HClustering σ (DMState α)) (c2 : ℕ) =>
        let r := HClustering.dist L (dmCS α) acc.2 c1 c2
        if flt r.1 acc.1.1 then ((r.1, some (c1, c2)), r.2) else (acc.1, r.2))
      (fun acc2 => acc2.2.cs = h.cs ∧
        ∀ p q, acc2.1.2 = some (p, q) → p < q ∧ q < h.cs.clusters.length)
      ((dmCS α).eachCluster acc.2.cs (Int.ofNat c1))
      ?_ acc hacc
    · exact inner
    · intro acc2 c2 hc2 hacc2
      have hmem : c1 < c2 ∧ c2 < h.cs.clusters.length := by
        have hb := mem_dmEachCluster acc.2.cs c1 c2 hc2
        rw [hacc.1] at hb
        exact hb
      dsimp only
      split
      · refine ⟨by simpa only [dist_cs] using hacc2.1, ?_⟩
        intro p q hpq
        injection hpq with hpq'
        obtain ⟨h1, h2⟩ := Prod.mk.injEq _ _ _ _ ▸ hpq'
        subst_eqs
        exact hmem
      · refine ⟨by simpa only [dist_cs] using hacc2.1, hacc2.2⟩

/-- When mergeAndUpdateAll does not panic, its cluster set is the
structural merge of its input cluster set. -/
theorem mergeAndUpdateAll_cs {α σ κ : Type} (L : LinkageI α σ)
    (CS : ClusterSetI α κ) (h : HClustering σ κ) (i j : ℕ)
    (h' : HClustering σ κ)
    (hm : HClustering.mergeAndUpdateAll L CS h i j = some h') :
    h'.cs = (CS.merge h.cs i j).1 := by
  unfold HClustering.mergeAndUpdateAll at hm
  simp only at hm
  split at hm
  · cases hm
  · split at hm
    · cases hm
    · rename_i c' hc'
      injection hm with hm'
      subst hm'
      dsimp only
      rw [snapshotDists_cs, snapshotDists_cs]

/-- A false MergeNext leaves the cluster set exactly as it was. -/
theorem mergeNext_false_cs {α σ : Type} [DecidableEq α] (L : LinkageI α σ)
    (chk : CheckerI (DMState α)) (h : HClustering σ (DMState α))
    (h' : HClustering σ (DMState α))
    (hm : HClustering.mergeNext L (dmCS α) chk h = some (false, h')) :
    h'.cs = h.cs := by
  have hinv := bestFold_inv L (HClustering.setup L h)
  have hsetup := setup_cs L h
  unfold HClustering.mergeNext at hm
  simp only at hm
  split at hm
  · injection hm with hm'
    injection hm' with hb hh
    subst hh
    rw [hinv.1, hsetup]
  · split at hm
    · injection hm with hm'
      injection hm' with hb hh
      subst hh
      rw [hinv.1, hsetup]
    · split at hm
      · injection hm with hm'
        injection hm' with hb hh
        subst hh
        rw [hinv.1, hsetup]
      · split at hm
        · injection hm with hm'
          injection hm' with hb hh
          cases hb
        · rcases Option.map_eq_some'.mp hm with ⟨h'', hm1, hm2⟩
          injection hm2 with hb hh
          cases hb

/-- A true MergeNext reduces the cluster count of the distance map
data source by exactly one. -/
theorem mergeNext_true_count {α σ : Type} [DecidableEq α] (L : LinkageI α σ)
    (chk : CheckerI (DMState α)) (h : HClustering σ (DMState α))
    (h' : HClustering σ (DMState α))
    (hm : HClustering.mergeNext L (dmCS α) chk h = some (true, h')) :
    h'.cs.clusters.length + 1 = h.cs.clusters.length := by
  have hinv := bestFold_inv L (HClustering.setup L h)
  have hsetup := setup_cs L h
  unfold HClustering.mergeNext at hm
  simp only at hm
  split at hm
  · injection hm with hm'
    injection hm' with hb hh
    cases hb
  · rename_i bp hbp
    have hbounds := hinv.2 bp.1 bp.2 (by rw [hbp])
    rw [hsetup] at hbounds
    split at hm
    · injection hm with hm'
      injection hm' with hb hh
      cases hb
    · split at hm
      · injection hm with hm'
        injection hm' with hb hh
        cases hb
      · split at hm
        · injection hm with hm'
          injection hm' with hb hh
          subst hh
          dsimp only
          rw [hinv.1, hsetup]
          exact dmMerge_length h.cs bp.1 bp.2 (by omega) (by omega)
        · rcases Option.map_eq_some'.mp hm with ⟨h'', hm1, hm2⟩
          injection hm2 with hb hh
          subst hh
          have hcs := mergeAndUpdateAll_cs L (dmCS α) _ bp.1 bp.2 h'' hm1
          rw [hcs, hinv.1, hsetup]
          exact dmMerge_length h.cs bp.1 bp.2 (by omega) (by omega)

/-- The driving loop never increases the cluster count of the distance
map data source. -/
theorem clusterGo_mono {α σ : Type} [DecidableEq α] (L : LinkageI α σ)
    (chk : CheckerI (DMState α)) :
    ∀ (fuel : ℕ) (h h' : HClustering σ (DMState α)),
      clusterGo L (dmCS α) chk fuel h = some h' →
      h'.cs.clusters.length ≤ h.cs.clusters.length := by
  intro fuel
  induction fuel with
  | zero => intro h h' hc; cases hc
  | succ n ih =>
      intro h h' hc
      unfold clusterGo at hc
      split at hc
      · split at hc
        · cases hc
        · injection hc with hh
          subst hh
          rename_i h2 hm
          rw [mergeNext_false_cs L chk h h2 hm]
        · rename_i h2 hm
          have := ih _ _ hc
          have h21 := mergeNext_true_count L chk h h2 hm
          omega
      · injection hc with hh
        subst hh
        exact Nat.le_refl _

/-- With a checker that always answers false, MergeNext returns false
with the engine state left by the best pair search. -/
theorem mergeNext_constFalse {α σ : Type} [DecidableEq α] (L : LinkageI α σ)
    (h : HClustering σ (DMState α)) :
    HClustering.mergeNext L (dmCS α) (fun _ _ _ _ => false) h
      = some (false, (HClustering.bestFold L (dmCS α) (HClustering.setup L h)).2) := by
  unfold HClustering.mergeNext
  simp only
  split
  · rfl
  · split
    · rfl
    · simp only [Bool.not_false, if_true]

/-- When the checker rejects the candidate best pair, MergeNext
returns false with the engine state left by the best pair search. -/
theorem mergeNext_veto {α σ : Type} [DecidableEq α] (L : LinkageI α σ)
    (chk : CheckerI (DMState α)) (h : HClustering σ (DMState α))
    (s : F) (b1 b2 : ℕ)
    (hb : (HClustering.bestFold L (dmCS α) (HClustering.setup L h)).1 = (s, some (b1, b2)))
    (hne : feq s maxFloat64 = false)
    (hchk : chk h.cs b1 b2 s = false) :
    HClustering.mergeNext L (dmCS α) chk h
      = some (false, (HClustering.bestFold L (dmCS α) (HClustering.setup L h)).2) := by
  have hinv := bestFold_inv L (HClustering.setup L h)
  have hsetup := setup_cs L h
  have h2 : (HClustering.bestFold L (dmCS α) (HClustering.setup L h)).1.2
      = some (b1, b2) := by rw [hb]
  have h1 : (HClustering.bestFold L (dmCS α) (HClustering.setup L h)).1.1 = s := by
    rw [hb]
  have hcs : (HClustering.bestFold L (dmCS α) (HClustering.setup L h)).2.cs = h.cs := by
    rw [hinv.1, hsetup]
  unfold HClustering.mergeNext
  simp only
  rw [h2, h1]
  simp only [hne, Bool.false_eq_true, if_false]
  rw [hcs, hchk]
  simp only [Bool.not_false, if_true]

/-- A whole run under a checker that always answers false leaves the
distance map data source untouched. -/
theorem cluster_constFalse {α σ : Type} [DecidableEq α] (L : LinkageI α σ)
    (link0 : σ) (st : DMState α) :
    cluster L (dmCS α) (fun _ _ _ _ => false) link0 st = some st := by
  unfold cluster
  unfold clusterGo
  split
  · rw [mergeNext_constFalse]
    simp only [Option.map_some']
    congr 1
    rw [bestFold_inv L _ |>.1, setup_cs]
  · rfl

/-- The average linkage score after a fold of Puts depends only on the
running sum and pair count of the starting state. -/
theorem avgGet_fold_eq {α : Type} [DecidableEq α] :
    ∀ (l : List (α × α × F)) (t1 t2 : AvgState α),
      t1.avgDist = t2.avgDist → t1.totalPairs = t2.totalPairs →
      (avgLinkage α).get
          (l.foldl (fun st p => (avgLinkage α).put p.1 p.2.1 p.2.2 st) t1)
        = (avgLinkage α).get
          (l.foldl (fun st p => (avgLinkage α).put p.1 p.2.1 p.2.2 st) t2) := by
  intro l
  induction l with
  | nil =>
      intro t1 t2 hA hT
      simp only [List.foldl_nil, avgLinkage]
      rw [hA, hT]
  | cons p rest ih =>
      intro t1 t2 hA hT
      simp only [List.foldl_cons]
      refine ih _ _ ?_ ?_
      · simp only [avgLinkage]
        rw [hA]
      · simp only [avgLinkage]
        rw [hT]

/-- Folding nonnegative put distances through the complete linkage Put
from a nonnegative current maximum computes the running maximum. -/
theorem maxPut_fold :
    ∀ (l : List ℚ) (cur : ℚ), 0 ≤ cur → (∀ x ∈ l, 0 ≤ x) →
      (l.map (fun q => ((0 : ℕ), (0 : ℕ), F.ofQ q))).foldl
          (fun st p => (maxLinkage ℕ).put p.1 p.2.1 p.2.2 st) (F.ofQ cur)
        = F.ofQ (l.foldl max cur) := by
  intro l
  induction l with
  | nil => intro cur _ _; rfl
  | cons d rest ih =>
      intro cur hcur hl
      simp only [List.map_cons, List.foldl_cons]
      have h0 : (F.ofInt 0) = F.ofQ 0 := rfl
      have hput : (maxLinkage ℕ).put 0 0 (F.ofQ d) (F.ofQ cur) = F.ofQ (max cur d) := by
        simp only [maxLinkage, h0, flt_ofQ]
        have hnc : ¬ cur < 0 := not_lt.mpr hcur
        by_cases hcd : cur < d
        · simp [hcd, max_eq_right hcd.le]
        · simp [hcd, hnc, max_eq_left (not_lt.mp hcd)]
      rw [hput]
      exact ih (max cur d) (le_trans hcur (le_max_left _ _))
        (fun x hx => hl x (List.mem_cons_of_mem d hx))

/-! ### Claim theorems -/

/-- C6: in every clustering run over the distance map data source,
each successful merge (MergeNext returning true) decreases Count by
exactly 1, a false MergeNext leaves the cluster set untouched, and the
driving loop never increases Count at any step. -/
theorem claimC6_count_decreases {α σ : Type} [DecidableEq α]
    (L : LinkageI α σ) (chk : CheckerI (DMState α))
    (h : HClustering σ (DMState α)) :
    (match HClustering.mergeNext L (dmCS α) chk h with
     | some (true, h') => h'.cs.clusters.length + 1 = h.cs.clusters.length
     | some (false, h') => h'.cs = h.cs
     | none => True) ∧
    ∀ fuel : ℕ,
      (clusterGo L (dmCS α) chk fuel h).all
        (fun h' => decide (h'.cs.clusters.length ≤ h.cs.clusters.length)) = true := by
  constructor
  · rcases hm : HClustering.mergeNext L (dmCS α) chk h with _ | ⟨b, h'⟩
    · trivial
    · cases b
      · exact mergeNext_false_cs L chk h h' hm
      · exact mergeNext_true_count L chk h h' hm
  · intro fuel
    rcases hc : clusterGo L (dmCS α) chk fuel h with _ | h'
    · rfl
    · simpa using clusterGo_mono L chk fuel h h' hc

/-- C7: whenever the checker rejects the candidate best pair,
MergeNext returns false without invoking Merge, leaving the cluster
set exactly as it was; and a run whose checker vetoes the very first
attempt returns the data source with zero merges performed. -/
theorem claimC7_checker_veto {α σ : Type} [DecidableEq α] (L : LinkageI α σ) :
    (∀ (chk : CheckerI (DMState α)) (h : HClustering σ (DMState α))
        (s : F) (b1 b2 : ℕ),
      (HClustering.bestFold L (dmCS α) (HClustering.setup L h)).1
          = (s, some (b1, b2)) →
      feq s maxFloat64 = false →
      chk h.cs b1 b2 s = false →
      HClustering.mergeNext L (dmCS α) chk h
          = some (false, (HClustering.bestFold L (dmCS α) (HClustering.setup L h)).2) ∧
        (HClustering.bestFold L (dmCS α) (HClustering.setup L h)).2.cs = h.cs) ∧
    ∀ (link0 : σ) (st : DMState α),
      cluster L (dmCS α) (fun _ _ _ _ => false) link0 st = some st := by
  constructor
  · intro chk h s b1 b2 hb hne hchk
    refine ⟨mergeNext_veto L chk h s b1 b2 hb hne hchk, ?_⟩
    rw [bestFold_inv L _ |>.1, setup_cs]
  · intro link0 st
    exact cluster_constFalse L link0 st

/-- Witness for C7 at a concrete input: on the two singleton clusters
of DM2 with single linkage, a threshold checker at 0.1 vetoes the best
pair (0, 1) of score 0.3; MergeNext answers false and the cluster set
is unchanged, and the run with an always vetoing checker returns DM2
itself. -/
theorem claimC7_checker_veto_witness :
    HClustering.mergeNext (minLinkage ℕ) (dmCS ℕ) (simpleThreshold (F.frac 1 10)) hDM2
        = some (false,
            (HClustering.bestFold (minLinkage ℕ) (dmCS ℕ)
              (HClustering.setup (minLinkage ℕ) hDM2)).2) ∧
      (HClustering.bestFold (minLinkage ℕ) (dmCS ℕ)
          (HClustering.setup (minLinkage ℕ) hDM2)).2.cs = hDM2.cs ∧
      cluster (minLinkage ℕ) (dmCS ℕ) (fun _ _ _ _ => false) (F.ofInt 0) DM2
        = some DM2 := by
  have main := (claimC7_checker_veto (minLinkage ℕ)).1
    (simpleThreshold (F.frac 1 10)) hDM2 (F.frac 3 10) 0 1
    (by decide) (by decide) (by decide)
  exact ⟨main.1, main.2, (claimC7_checker_veto (minLinkage ℕ)).2 (F.ofInt 0) DM2⟩

/-- C8: the distance map Distance returns the stored (a, b) entry if
present, otherwise the stored (b, a) entry, otherwise the default 1.0;
hence a map populated only with (a, b) reports the same value for both
argument orders. -/
theorem claimC8_distance_lookup {α : Type} [DecidableEq α] :
    (∀ (st : DMState α) (c1 c2 : ℕ) (a b : α) (v : F),
      (alGet st.data a).bind (fun inner => alGet inner b) = some v →
      dmDistance st c1 c2 a b = v) ∧
    (∀ (st : DMState α) (c1 c2 : ℕ) (a b : α) (v : F),
      (alGet st.data a).bind (fun inner => alGet inner b) = none →
      (alGet st.data b).bind (fun inner => alGet inner a) = some v →
      dmDistance st c1 c2 a b = v) ∧
    (∀ (st : DMState α) (c1 c2 : ℕ) (a b : α),
      (alGet st.data a).bind (fun inner => alGet inner b) = none →
      (alGet st.data b).bind (fun inner => alGet inner a) = none →
      dmDistance st c1 c2 a b = F.ofInt 1) ∧
    (∀ (st : DMState α) (c1 c2 c3 c4 : ℕ) (a b : α) (v : F),
      (alGet st.data a).bind (fun inner => alGet inner b) = some v →
      (alGet st.data b).bind (fun inner => alGet inner a) = none →
      dmDistance st c1 c2 a b = v ∧ dmDistance st c3 c4 b a = v) := by
  refine ⟨?_, ?_, ?_, ?_⟩
  · intro st c1 c2 a b v hab
    unfold dmDistance
    rw [hab]
  · intro st c1 c2 a b v hab hba
    unfold dmDistance
    rw [hab, hba]
  · intro st c1 c2 a b hab hba
    unfold dmDistance
    rw [hab, hba]
  · intro st c1 c2 c3 c4 a b v hab hba
    constructor
    · unfold dmDistance
      rw [hab]
    · unfold dmDistance
      rw [hba, hab]

/-- Witness for C8 at a concrete input: a map holding only the entry
(0, 1) with value 0.5 reports 0.5 for both argument orders, and the
default 1.0 for an absent pair. -/
theorem claimC8_distance_lookup_witness :
    dmDistance { data := [(0, [(1, F.frac 1 2)])], clusters := ([] : List (List ℕ)) }
        0 1 0 1 = F.frac 1 2 ∧
      dmDistance { data := [(0, [(1, F.frac 1 2)])], clusters := ([] : List (List ℕ)) }
        0 1 1 0 = F.frac 1 2 ∧
      dmDistance { data := [(0, [(1, F.frac 1 2)])], clusters := ([] : List (List ℕ)) }
        0 1 2 3 = F.ofInt 1 := by
  have h4 := (claimC8_distance_lookup (α := ℕ)).2.2.2
    { data := [(0, [(1, F.frac 1 2)])], clusters := ([] : List (List ℕ)) }
    0 1 0 1 0 1 (F.frac 1 2) (by decide) (by decide)
  have h3 := (claimC8_distance_lookup (α := ℕ)).2.2.1
    { data := [(0, [(1, F.frac 1 2)])], clusters := ([] : List (List ℕ)) }
    0 1 2 3 (by decide) (by decide)
  exact ⟨h4.1, h4.2, h3⟩

/-- C9: for every built-in linkage strategy and every sequence of Put
inputs, two Reset, Put star, Get cycles with identical inputs yield
identical scores whatever states the cycles start from: Reset clears
all state the score depends on (for the unweighted average variant
including the auxiliary item sets). -/
theorem claimC9_reset_cycles {α : Type} [DecidableEq α]
    (l : List (α × α × F)) (s1 s2 : F) (t1 t2 : AvgState α) :
    runCycle (maxLinkage α) s1 l = runCycle (maxLinkage α) s2 l ∧
    runCycle (minLinkage α) s1 l = runCycle (minLinkage α) s2 l ∧
    runCycle (avgLinkage α) t1 l = runCycle (avgLinkage α) t2 l := by
  refine ⟨rfl, rfl, ?_⟩
  unfold runCycle
  exact avgGet_fold_eq l _ _ rfl rfl

/-- C10: for both average linkage variants, Get after Reset with no
intervening Put returns 0.0; that score compares lower than any
positive score and lower than the initial MaxFloat64 best score of the
engine search, so the selection test of MergeNext accepts it. -/
theorem claimC10_avg_empty_get {α : Type} [DecidableEq α]
    (t : AvgState α) (q : ℚ) :
    (avgLinkage α).get ((avgLinkage α).reset t) = F.ofInt 0 ∧
      (0 < q → flt (F.ofInt 0) (F.ofQ q) = true) ∧
      flt (F.ofInt 0) maxFloat64 = true := by
  refine ⟨rfl, ?_, by decide⟩
  intro hq
  have h0 : (F.ofInt 0) = F.ofQ 0 := rfl
  rw [h0, flt_ofQ]
  simpa using hq

/-- Witness for C10 at a concrete input: from the freshly constructed
unweighted average state, Get after Reset is 0.0, and 0.0 passes the
selection test against the score 1 and against MaxFloat64. -/
theorem claimC10_avg_empty_get_witness :
    (avgLinkage ℕ).get ((avgLinkage ℕ).reset (avgInit ℕ false)) = F.ofInt 0 ∧
      flt (F.ofInt 0) (F.ofQ 1) = true ∧
      flt (F.ofInt 0) maxFloat64 = true := by
  have h := claimC10_avg_empty_get (avgInit ℕ false) 1
  exact ⟨h.1, h.2.1 (by decide), h.2.2⟩

/-- C4 counterexample: the claim fails as stated.  First, Get is not
the maximum of the observed distances for every Put sequence: after
Put distances -3 then -5, Get returns -5 although the maximum observed
distance is -3 (the Reset sentinel -1 stays negative, so every later
Put overwrites the state).  Second, the score of a pair with no Puts
(the Reset sentinel -1) is selectable as the best score: on a user
cluster set whose cluster 1 enumerates no items, the best pair search
of the engine selects exactly that pair with score -1, which also
beats the genuine score 0.5. -/
theorem claimC4_counterexample :
    maxScoreOfPuts [-3, -5] = F.ofInt (-5) ∧
      feq (maxScoreOfPuts [-3, -5]) (F.ofInt (-3)) = false ∧
      (HClustering.bestFold (maxLinkage ℕ) emptyClusterCS
          (HClustering.setup (maxLinkage ℕ) hEmpty)).1
        = (F.ofInt (-1), some (0, 1)) ∧
      flt (F.ofInt (-1)) (F.frac 5 10) = true := by
  refine ⟨?_, by decide, by decide, by decide⟩
  show (maxLinkage ℕ).get _ = F.ofInt (-5)
  decide

/-- C4 (amended): for complete linkage, after Reset followed by Puts
of nonnegative distances, Get returns the maximum observed distance;
when no pairs were put, Get returns -1.0, a value that compares lower
than MaxFloat64 and than every nonnegative genuine score, and that the
engine best pair search does select as best score (witnessed on a
cluster set with an itemless cluster). -/
theorem claimC4_complete_linkage_max :
    (∀ (q : ℚ) (l : List ℚ), 0 ≤ q → (∀ x ∈ l, 0 ≤ x) →
      maxScoreOfPuts (q :: l) = F.ofQ (l.foldl max q)) ∧
    maxScoreOfPuts [] = F.ofInt (-1) ∧
    (∀ q : ℚ, 0 ≤ q → flt (F.ofInt (-1)) (F.ofQ q) = true) ∧
    flt (F.ofInt (-1)) maxFloat64 = true ∧
    (HClustering.bestFold (maxLinkage ℕ) emptyClusterCS
        (HClustering.setup (maxLinkage ℕ) hEmpty)).1
      = (F.ofInt (-1), some (0, 1)) := by
  refine ⟨?_, rfl, ?_, by decide, by decide⟩
  · intro q l hq hl
    unfold maxScoreOfPuts runCycle
    simp only [List.map_cons, List.foldl_cons]
    have hfirst : (maxLinkage ℕ).put 0 0 (F.ofQ q) ((maxLinkage ℕ).reset (F.ofInt 0))
        = F.ofQ q := by
      show (if flt (F.ofInt (-1)) (F.ofQ q) || flt (F.ofInt (-1)) (F.ofInt 0)
            then F.ofQ q else F.ofInt (-1)) = F.ofQ q
      have : flt (F.ofInt (-1)) (F.ofInt 0) = true := by decide
      rw [this]
      simp
    rw [hfirst]
    exact maxPut_fold l q hq hl
  · intro q hq
    have hm1 : (F.ofInt (-1)) = F.ofQ (-1) := rfl
    rw [hm1, flt_ofQ]
    simp only [decide_eq_true_eq]
    linarith

/-- Witness for the amended C4 at a concrete input: Puts of 1 then 2
give score 2, and the no-puts sentinel -1 beats the nonnegative
score 0. -/
theorem claimC4_complete_linkage_max_witness :
    maxScoreOfPuts [1, 2] = F.ofQ ([(2 : ℚ)].foldl max 1) ∧
      flt (F.ofInt (-1)) (F.ofQ 0) = true := by
  exact ⟨(claimC4_complete_linkage_max.1 1 [2] (by decide) (by decide)),
    claimC4_complete_linkage_max.2.2.1 0 (by decide)⟩

/-- C1: refuted on the code (the cache does hold a stale score for a
still live pair).  On DM4 with single linkage, the first MergeNext
merges clusters 0 and 1 and the data source relocates cluster 3 into
the vacated slot 1; the Lance-Williams loop of mergeAndUpdateAll then
indexes its pre-merge snapshots with the new slot number, so the cache
entry for the live pair (0, 1) ends up 0.1 while recomputing from
scratch over current membership gives 0.8, and the cache aware dist
returns the stale 0.1. -/
theorem claimC1_cache_stale :
    (HClustering.mergeNext (minLinkage ℕ) (dmCS ℕ) (limitClustersCount 1) hDM4).map
        (fun p =>
          (p.1,
           feq (HClustering.dist (minLinkage ℕ) (dmCS ℕ) p.2 0 1).1 (F.frac 1 10),
           feq (specScratchScore (minLinkage ℕ) (dmCS ℕ) p.2.cs p.2.link 0 1)
               (F.frac 4 5),
           feq (HClustering.dist (minLinkage ℕ) (dmCS ℕ) p.2 0 1).1
               (specScratchScore (minLinkage ℕ) (dmCS ℕ) p.2.cs p.2.link 0 1)))
      = some (true, true, true, false) := by decide

/-- C2: refuted on the code (code bug).  MergeNext consults LWParams
only when lwCache does not hold exactly 4 values, which happens once
at the start of a run, before any Reset or Put has touched the
freshly constructed avgLinkage: both item sets are empty, so the
unweighted average coefficients are 0.0/0.0 = NaN, and this NaN
coefficient list is used for every later merge of the run.  On DM3
the first merge joins the singleton clusters 0 and 1, for which the
specification prescribes coefficients 1/2 and 1/2. -/
theorem claimC2_lwparams_stale :
    (HClustering.mergeNext (avgLinkage ℕ) (dmCS ℕ) (limitClustersCount 1) hDM3avg).map
        (fun p => (p.1, p.2.lwCache, p.2.cs.clusters))
      = some (true, [F.nan, F.nan, F.ofInt 0, F.ofInt 0], [[0, 1], [2]]) ∧
    specUPGMAParams 1 1 = [F.frac 1 2, F.frac 1 2, F.ofInt 0, F.ofInt 0] ∧
    ([F.nan, F.nan, F.ofInt 0, F.ofInt 0] : List F) ≠ specUPGMAParams 1 1 := by
  refine ⟨by decide, by decide, by decide⟩

/-- C3: refuted on the code (code bug).  With a linkage whose LWParams
returns 2 values, the engine still activates the distance cache (the
arity test only gates re-consulting LWParams), so the first merge runs
mergeAndUpdateAll, which indexes lwCache at positions 0..3 and panics:
the run crashes instead of completing.  A linkage returning 5 values,
by contrast, does degrade gracefully to full recomputation per round
and the run completes without error. -/
theorem claimC3_lwparams_arity :
    cluster (badLinkage2 ℕ) (dmCS ℕ) (simpleThreshold (F.ofInt 10))
        (F.ofInt 0) DM2 = none ∧
    (cluster (linkage5 ℕ) (dmCS ℕ) (simpleThreshold (F.ofInt 10))
        (F.ofInt 0) DM2).map (fun st => st.clusters) = some [[0, 1]] := by
  refine ⟨by decide, by decide⟩

/-- C5: refuted on the code for one built-in linkage (code bug).  On
the five item set of the package tests with the max-cluster-count
checker at limit 2, complete, single and weighted average linkage all
stop with exactly 2 clusters, but unweighted average linkage stops
with 3: its NaN Lance-Williams coefficients (see the C2 theorem) make
every cached distance involving a merged cluster NaN, NaN scores are
never selectable, and after two merges no candidate pair remains. -/
theorem claimC5_limit_two_clusters :
    (cluster (maxLinkage ℕ) (dmCS ℕ) (limitClustersCount 2)
        (F.ofInt 0) DM5).map (fun st => st.clusters.length) = some 2 ∧
    (cluster (minLinkage ℕ) (dmCS ℕ) (limitClustersCount 2)
        (F.ofInt 0) DM5).map (fun st => st.clusters.length) = some 2 ∧
    (cluster (avgLinkage ℕ) (dmCS ℕ) (limitClustersCount 2)
        (avgInit ℕ true) DM5).map (fun st => st.clusters.length) = some 2 ∧
    (cluster (avgLinkage ℕ) (dmCS ℕ) (limitClustersCount 2)
        (avgInit ℕ false) DM5).map (fun st => st.clusters.length) = some 3 := by
  refine ⟨by decide, by decide, by decide, by decide⟩
